import Mathlib

/-!
Verification of the cbgt cluster-coordination core against its
natural-language specification.

The Go sources are shallowly embedded:

* Go strings are `String` (or `List Char` for the byte-slicing path
  helpers); Go `uint64` sequence numbers are `Nat`; Go `int` plan
  parameters are `Int`; crc32 state is a `Nat` kept below `2 ^ 32` by the
  step function.
* Go maps are association lists `List (String × α)` with `alGet`/`alSet`
  (Go map iteration order becomes an explicit list order).
* The `container/heap` min-heap holding consistency-wait requests is
  modelled as the multiset of queued requests: `heap.Push` appends, and
  the pop-min loop of `applyBatchUnlocked` releases exactly the requests
  whose seq is at most the new `seqMaxBatch` (the loop pops while the
  heap minimum qualifies, which under the heap invariant releases
  precisely that set).
* Channels: a request's `DoneCh` is represented by the request's
  membership in the released / drained result lists; the `select` in
  `ConsistencyWaitDone` is driven by an explicit event value saying which
  channel fired first.
* External collaborators (blance placement, gkvlite flush, the data
  source helper, JSON parsing, fresh-UUID generation) enter as function
  parameters or explicit outcome flags.
* `PlanPIndexes` collections keep only the keyed `planPIndexes` map; the
  collection-level `uuid`, `implVersion` and `warnings` fields are not
  modelled (no claim mentions them).
-/

/-! ## Association lists: the embedding of Go maps -/

/-- Lookup in a Go map modelled as an association list. -/
def alGet {α : Type} (m : List (String × α)) (k : String) : Option α :=
  match m with
  | [] => none
  | (k0, v0) :: rest => if k0 = k then some v0 else alGet rest k

/-- Go map assignment `m[k] = v`: replace the binding if present, else append. -/
def alSet {α : Type} (m : List (String × α)) (k : String) (v : α) : List (String × α) :=
  match m with
  | [] => [(k, v)]
  | (k0, v0) :: rest => if k0 = k then (k, v) :: rest else (k0, v0) :: alSet rest k v

/-- Go `delete(m, k)`. -/
def alDel {α : Type} (m : List (String × α)) (k : String) : List (String × α) :=
  match m with
  | [] => []
  | (k0, v0) :: rest => if k0 = k then rest else (k0, v0) :: alDel rest k

theorem alGet_alSet {α : Type} (m : List (String × α)) (k k' : String) (v : α) :
    alGet (alSet m k v) k' = if k = k' then some v else alGet m k' := by
  induction m with
  | nil =>
    by_cases h : k = k' <;> simp [alSet, alGet, h]
  | cons hd tl ih =>
    obtain ⟨k0, v0⟩ := hd
    by_cases h0 : k0 = k
    · subst h0
      by_cases h : k0 = k' <;> simp [alSet, alGet, h, ih]
    · by_cases h : k0 = k'
      · subst h
        have hkk : ¬ k = k0 := fun he => h0 he.symm
        simp [alSet, alGet, h0, hkk, ih]
      · simp [alSet, alGet, h0, h, ih]

/-! ## Bytes, crc32-IEEE and lowercase hex (misc helpers used in PlanPIndexName) -/

/-- UTF-8 encoding of one character, as the list of its byte values
(Go strings are UTF-8 byte sequences). -/
def charUtf8Bytes (c : Char) : List Nat :=
  let v := c.toNat
  if v < 0x80 then [v]
  else if v < 0x800 then [0xc0 + v / 64, 0x80 + v % 64]
  else if v < 0x10000 then [0xe0 + v / 4096, 0x80 + (v / 64) % 64, 0x80 + v % 64]
  else [0xf0 + v / 262144, 0x80 + (v / 4096) % 64, 0x80 + (v / 64) % 64, 0x80 + v % 64]

/-- The bytes of a Go string. -/
def strBytes (s : String) : List Nat :=
  (s.data.map charUtf8Bytes).flatten

/-- One bit step of the reflected crc32-IEEE computation
(polynomial 0xedb88320). -/
def crc32StepBit (c : Nat) : Nat :=
  if c % 2 = 1 then Nat.xor (c / 2) 0xedb88320 else c / 2

/-- Fold one input byte into the running crc (eight bit steps), as in
Go's hash/crc32 with the IEEE polynomial. -/
def crc32Byte (c b : Nat) : Nat :=
  crc32StepBit (crc32StepBit (crc32StepBit (crc32StepBit
    (crc32StepBit (crc32StepBit (crc32StepBit (crc32StepBit (Nat.xor c b))))))))

/-- crc32-IEEE of a byte list: init 0xffffffff, byte folds, final xor. -/
def crc32 (bytes : List Nat) : Nat :=
  Nat.xor (bytes.foldl crc32Byte 0xffffffff) 0xffffffff

/-- Go's fmt `%x` of an unsigned value: minimal lowercase hex ("0" for
zero), via the base-16 digit expansion. -/
def natToHexLower (n : Nat) : String :=
  String.mk (Nat.toDigits 16 n)

/-! ## Planner data model (IndexDef, PlanPIndex) -/

/-- Plan parameters of an IndexDef: the fields of PlanParams the planner
reads (maxPartitionsPerPIndex, numReplicas, planFrozen). -/
structure PlanParams where
  maxPartitionsPerPIndex : Int
  numReplicas : Int
  planFrozen : Bool
deriving DecidableEq, Repr

/-- An IndexDef: a logical index definition (name, uuid, type tag, opaque
params, source identification, plan parameters). -/
structure IndexDef where
  name : String
  uuid : String
  type : String
  params : String
  sourceType : String
  sourceName : String
  sourceUUID : String
  sourceParams : String
  planParams : PlanParams
deriving DecidableEq, Repr

/-- One node's assignment entry in a PlanPIndex node map. -/
structure PlanPIndexNode where
  canRead : Bool
  canWrite : Bool
  priority : Int
deriving DecidableEq, Repr

/-- A PlanPIndex: one physical partition of a logical index, with its
node-UUID-to-assignment map. -/
structure PlanPIndex where
  name : String
  uuid : String
  indexType : String
  indexName : String
  indexUUID : String
  indexParams : String
  sourceType : String
  sourceName : String
  sourceUUID : String
  sourceParams : String
  sourcePartitions : String
  nodes : List (String × PlanPIndexNode)
deriving DecidableEq, Repr

/-- The keyed planPIndexes map of a PlanPIndexes collection. -/
def PlanPIndexes : Type := List (String × PlanPIndex)

/-- PlanPIndexName: indexDef.Name + "_" + indexDef.UUID + "_" +
fmt %x of crc32-IEEE(sourcePartitions). -/
def planPIndexName (indexDef : IndexDef) (sourcePartitions : String) : String :=
  indexDef.name ++ "_" ++ indexDef.uuid ++ "_" ++
    natToHexLower (crc32 (strBytes sourcePartitions))

/-! ## SplitIndexDefIntoPlanPIndexes -/

/-- The partition-accumulation loop of SplitIndexDefIntoPlanPIndexes:
walk the source partitions, flushing the current chunk whenever
maxPartitionsPerPIndex > 0 and the chunk has reached that size.
Returns the flushed chunks and the leftover chunk. -/
def splitLoop (maxP : Int) (parts : List String) (curr : List String) :
    List (List String) × List String :=
  match parts with
  | [] => ([], curr)
  | p :: rest =>
    let curr1 := curr ++ [p]
    if 0 < maxP ∧ maxP ≤ (curr1.length : Int) then
      let r := splitLoop maxP rest []
      (curr1 :: r.1, r.2)
    else
      splitLoop maxP rest curr1

/-- The chunks SplitIndexDefIntoPlanPIndexes builds: the flushed chunks,
plus the leftover when non-empty, plus one (empty) chunk when nothing was
produced at all. -/
def splitChunks (maxP : Int) (parts : List String) : List (List String) :=
  let r := splitLoop maxP parts []
  if 0 < r.2.length ∨ r.1.length = 0 then r.1 ++ [r.2] else r.1

/-- The PlanPIndex built by addPlanPIndex inside
SplitIndexDefIntoPlanPIndexes for one chunk of source partitions
(uuid is the fresh NewUUID value, passed in). -/
def mkPlanPIndex (indexDef : IndexDef) (uuid : String) (chunk : List String) :
    PlanPIndex :=
  let sourcePartitions := String.intercalate "," chunk
  { name := planPIndexName indexDef sourcePartitions
    uuid := uuid
    indexType := indexDef.type
    indexName := indexDef.name
    indexUUID := indexDef.uuid
    indexParams := indexDef.params
    sourceType := indexDef.sourceType
    sourceName := indexDef.sourceName
    sourceUUID := indexDef.sourceUUID
    sourceParams := indexDef.sourceParams
    sourcePartitions := sourcePartitions
    nodes := [] }

/-- SplitIndexDefIntoPlanPIndexes: one PlanPIndex per chunk, in discovery
order. `uuidGen` supplies the fresh NewUUID of each successive PlanPIndex;
the ordered source-partition list (DataSourcePartitions, an external
helper) is the `parts` argument. -/
def splitIndexDefIntoPlanPIndexes (indexDef : IndexDef) (uuidGen : Nat → String)
    (parts : List String) : List PlanPIndex :=
  (splitChunks indexDef.planParams.maxPartitionsPerPIndex parts).enum.map
    (fun ic => mkPlanPIndex indexDef (uuidGen ic.1) ic.2)

/-! ## Properties of the split (claims about chunking and naming) -/

theorem splitLoop_spec (maxP : Int) (hm : 0 < maxP) :
    ∀ (parts curr : List String), (curr.length : Int) < maxP →
      (∀ c ∈ (splitLoop maxP parts curr).1, (c.length : Int) = maxP) ∧
      ((splitLoop maxP parts curr).2.length : Int) < maxP ∧
      (splitLoop maxP parts curr).1.flatten ++ (splitLoop maxP parts curr).2 =
        curr ++ parts := by
  intro parts
  induction parts with
  | nil =>
    intro curr hc
    refine ⟨by simp [splitLoop], by simpa [splitLoop] using hc, by simp [splitLoop]⟩
  | cons p rest ih =>
    intro curr hc
    by_cases hfl : 0 < maxP ∧ maxP ≤ (((curr ++ [p]).length : Nat) : Int)
    · have heq : splitLoop maxP (p :: rest) curr =
          ((curr ++ [p]) :: (splitLoop maxP rest []).1, (splitLoop maxP rest []).2) := by
        simp only [splitLoop]
        rw [if_pos hfl]
      have hlen : (((curr ++ [p]).length : Nat) : Int) = maxP := by
        obtain ⟨_, h2⟩ := hfl
        simp only [List.length_append, List.length_cons, List.length_nil] at h2 ⊢
        push_cast at h2 ⊢
        omega
      obtain ⟨ih1, ih2, ih3⟩ := ih [] (by simpa using hm)
      rw [heq]
      refine ⟨?_, ih2, ?_⟩
      · intro c hcmem
        rcases List.mem_cons.mp hcmem with h | h
        · subst h; exact hlen
        · exact ih1 c h
      · simp only [List.flatten_cons, List.append_assoc]
        rw [ih3]
        simp
    · have heq : splitLoop maxP (p :: rest) curr = splitLoop maxP rest (curr ++ [p]) := by
        simp only [splitLoop]
        rw [if_neg hfl]
      have hlt : (((curr ++ [p]).length : Nat) : Int) < maxP := by
        rcases not_and_or.mp hfl with h | h
        · exact absurd hm h
        · omega
      obtain ⟨ih1, ih2, ih3⟩ := ih (curr ++ [p]) hlt
      rw [heq]
      refine ⟨ih1, ih2, ?_⟩
      rw [ih3]
      simp

theorem enum_map_snd_comp {α β : Type} (l : List α) (g : α → β) :
    l.enum.map (fun ic => g ic.2) = l.map g := by
  have h : (fun (ic : Nat × α) => g ic.2) = g ∘ Prod.snd := rfl
  rw [h, ← List.map_map, List.enum_map_snd]

theorem splitChunks_spec (maxP : Int) (parts : List String) (hm : 0 < maxP) :
    (splitChunks maxP parts).flatten = parts ∧
    (∀ c ∈ splitChunks maxP parts, (c.length : Int) ≤ maxP) ∧
    (∀ c ∈ (splitChunks maxP parts).dropLast, (c.length : Int) = maxP) ∧
    (parts = [] → splitChunks maxP parts = [[]]) ∧
    splitChunks maxP parts ≠ [] := by
  obtain ⟨h1, h2, h3⟩ := splitLoop_spec maxP hm parts [] (by simpa using hm)
  have hnil : parts = [] → splitChunks maxP parts = [[]] := by
    intro hp
    subst hp
    simp [splitChunks, splitLoop]
  by_cases hcond : 0 < (splitLoop maxP parts []).2.length ∨
      (splitLoop maxP parts []).1.length = 0
  · have heq : splitChunks maxP parts =
        (splitLoop maxP parts []).1 ++ [(splitLoop maxP parts []).2] := by
      simp only [splitChunks]
      rw [if_pos hcond]
    rw [heq]
    refine ⟨?_, ?_, ?_, fun hp => (heq ▸ hnil hp : _), by simp⟩
    · rw [List.flatten_append]
      simpa using h3
    · intro c hcmem
      rcases List.mem_append.mp hcmem with h | h
      · exact le_of_eq (h1 c h)
      · rcases List.mem_singleton.mp h with rfl
        exact le_of_lt h2
    · intro c hcmem
      simp only [List.dropLast_concat] at hcmem
      exact h1 c hcmem
  · have heq : splitChunks maxP parts = (splitLoop maxP parts []).1 := by
      simp only [splitChunks]
      rw [if_neg hcond]
    push_neg at hcond
    obtain ⟨hc1, hc2⟩ := hcond
    have h20 : (splitLoop maxP parts []).2 = [] :=
      List.length_eq_zero.mp (by omega)
    rw [heq]
    refine ⟨?_, ?_, ?_, fun hp => (heq ▸ hnil hp : _), ?_⟩
    · rw [h20] at h3
      simpa using h3
    · intro c hcmem
      exact le_of_eq (h1 c hcmem)
    · intro c hcmem
      exact h1 c (List.Sublist.subset (List.dropLast_sublist _) hcmem)
    · intro hne
      rw [hne] at hc2
      simp at hc2

/-- C2: the planner's split step groups the discovered source partitions,
in order, into chunks of at most maxPartitionsPerPIndex; all chunks but
possibly the last have exactly that size; an empty source-partition list
yields exactly one PlanPIndex whose source-partition set is empty. -/
theorem splitIndexDef_chunks_spec (indexDef : IndexDef) (uuidGen : Nat → String)
    (parts : List String)
    (hm : 0 < indexDef.planParams.maxPartitionsPerPIndex) :
    (splitIndexDefIntoPlanPIndexes indexDef uuidGen parts).map
        PlanPIndex.sourcePartitions =
      (splitChunks indexDef.planParams.maxPartitionsPerPIndex parts).map
        (String.intercalate ",") ∧
    (splitChunks indexDef.planParams.maxPartitionsPerPIndex parts).flatten = parts ∧
    (∀ c ∈ splitChunks indexDef.planParams.maxPartitionsPerPIndex parts,
      (c.length : Int) ≤ indexDef.planParams.maxPartitionsPerPIndex) ∧
    (∀ c ∈ (splitChunks indexDef.planParams.maxPartitionsPerPIndex parts).dropLast,
      (c.length : Int) = indexDef.planParams.maxPartitionsPerPIndex) ∧
    (parts = [] → splitIndexDefIntoPlanPIndexes indexDef uuidGen parts =
      [mkPlanPIndex indexDef (uuidGen 0) []]) := by
  obtain ⟨h1, h2, h3, h4, h5⟩ :=
    splitChunks_spec indexDef.planParams.maxPartitionsPerPIndex parts hm
  refine ⟨?_, h1, h2, h3, ?_⟩
  · unfold splitIndexDefIntoPlanPIndexes
    rw [List.map_map]
    have hcomp : (PlanPIndex.sourcePartitions ∘ fun ic : Nat × List String =>
        mkPlanPIndex indexDef (uuidGen ic.1) ic.2) =
        fun ic : Nat × List String => String.intercalate "," ic.2 := rfl
    rw [hcomp]
    exact enum_map_snd_comp _ _
  · intro hp
    rw [splitIndexDefIntoPlanPIndexes, h4 hp]
    rfl

/-- Witness data for the split claims: the spec's single-node scenario,
an index over ten source partitions with maxPartitionsPerPIndex 4. -/
def indexDefTen : IndexDef :=
  { name := "i", uuid := "U", type := "engine", params := ""
    sourceType := "primary", sourceName := "s", sourceUUID := ""
    sourceParams := ""
    planParams := { maxPartitionsPerPIndex := 4, numReplicas := 0, planFrozen := false } }

/-- Witness data: source partitions 0..9. -/
def partsTen : List String :=
  ["0", "1", "2", "3", "4", "5", "6", "7", "8", "9"]

/-- Witness data: a deterministic stand-in for the NewUUID stream. -/
def uuidGenW (n : Nat) : String :=
  "pp-uuid-" ++ toString n

theorem splitIndexDef_chunks_witness :
    ((splitIndexDefIntoPlanPIndexes indexDefTen uuidGenW partsTen).map
        PlanPIndex.sourcePartitions =
      (splitChunks indexDefTen.planParams.maxPartitionsPerPIndex partsTen).map
        (String.intercalate ",") ∧
    (splitChunks indexDefTen.planParams.maxPartitionsPerPIndex partsTen).flatten =
      partsTen ∧
    (∀ c ∈ splitChunks indexDefTen.planParams.maxPartitionsPerPIndex partsTen,
      (c.length : Int) ≤ indexDefTen.planParams.maxPartitionsPerPIndex) ∧
    (∀ c ∈ (splitChunks indexDefTen.planParams.maxPartitionsPerPIndex
        partsTen).dropLast,
      (c.length : Int) = indexDefTen.planParams.maxPartitionsPerPIndex) ∧
    (partsTen = [] → splitIndexDefIntoPlanPIndexes indexDefTen uuidGenW partsTen =
      [mkPlanPIndex indexDefTen (uuidGenW 0) []])) ∧
    splitChunks indexDefTen.planParams.maxPartitionsPerPIndex partsTen =
      [["0", "1", "2", "3"], ["4", "5", "6", "7"], ["8", "9"]] :=
  ⟨splitIndexDef_chunks_spec indexDefTen uuidGenW partsTen (by decide), by decide⟩

/-- C3: every PlanPIndex produced by the split step is named
indexName + "_" + indexUUID + "_" + lowercase-hex(crc32-IEEE of the
comma-joined source partitions), and the name depends only on
(indexName, indexUUID, sourcePartitions). -/
theorem planPIndexName_spec (indexDef : IndexDef) (uuidGen : Nat → String)
    (parts : List String) (q : PlanPIndex)
    (hq : q ∈ splitIndexDefIntoPlanPIndexes indexDef uuidGen parts) :
    q.name = indexDef.name ++ "_" ++ indexDef.uuid ++ "_" ++
      natToHexLower (crc32 (strBytes q.sourcePartitions)) ∧
    ∀ (d2 : IndexDef) (sp : String),
      d2.name = indexDef.name → d2.uuid = indexDef.uuid →
        planPIndexName d2 sp = planPIndexName indexDef sp := by
  constructor
  · obtain ⟨ic, _, rfl⟩ := List.mem_map.mp hq
    rfl
  · intro d2 sp hname huuid
    rw [planPIndexName, planPIndexName, hname, huuid]

/-- Witness data for the naming claim: a one-partition index. -/
def indexDefOne : IndexDef :=
  { name := "i", uuid := "U", type := "engine", params := ""
    sourceType := "primary", sourceName := "s", sourceUUID := ""
    sourceParams := ""
    planParams := { maxPartitionsPerPIndex := 1, numReplicas := 0, planFrozen := false } }

set_option maxRecDepth 8000 in
theorem planPIndexName_witness :
    (mkPlanPIndex indexDefOne (uuidGenW 0) ["7"]).name =
      indexDefOne.name ++ "_" ++ indexDefOne.uuid ++ "_" ++
        natToHexLower (crc32 (strBytes
          (mkPlanPIndex indexDefOne (uuidGenW 0) ["7"]).sourcePartitions)) ∧
    ∀ (d2 : IndexDef) (sp : String),
      d2.name = indexDefOne.name → d2.uuid = indexDefOne.uuid →
        planPIndexName d2 sp = planPIndexName indexDefOne sp :=
  planPIndexName_spec indexDefOne uuidGenW ["7"]
    (mkPlanPIndex indexDefOne (uuidGenW 0) ["7"]) (by decide)

/-! ## PIndexPath / ParsePIndexPath (pindex.go) -/

/-- The os.PathSeparator of the target platform. -/
def pathSepChar : Char := '/'

/-- The pindexPathSuffix constant ".pindex", as characters. -/
def pindexPathTail : List Char := ['.', 'p', 'i', 'n', 'd', 'e', 'x']

/-- PIndexPath: dataDir + separator + pindexName + ".pindex"
(paths as character lists, mirroring Go byte slicing). -/
def pindexPath (dataDir pindexName : List Char) : List Char :=
  dataDir ++ [pathSepChar] ++ pindexName ++ pindexPathTail

/-- ParsePIndexPath: reject paths without the ".pindex" tail or without
the dataDir-plus-separator head; otherwise strip both and return the
pindex name with ok = true. -/
def parsePIndexPath (dataDir path : List Char) : List Char × Bool :=
  if pindexPathTail.isSuffixOf path = false then ([], false)
  else
    let pre := dataDir ++ [pathSepChar]
    if pre.isPrefixOf path = false then ([], false)
    else
      let n := path.drop pre.length
      (n.take (n.length - pindexPathTail.length), true)

/-- C10: ParsePIndexPath inverts PIndexPath for every dataDir and pindex
name, and rejects (ok = false) any path missing the ".pindex" tail or the
dataDir-plus-separator head. -/
theorem parsePIndexPath_roundtrip (dataDir pindexName path : List Char) :
    parsePIndexPath dataDir (pindexPath dataDir pindexName) = (pindexName, true) ∧
    (pindexPathTail.isSuffixOf path = false →
      parsePIndexPath dataDir path = ([], false)) ∧
    ((dataDir ++ [pathSepChar]).isPrefixOf path = false →
      parsePIndexPath dataDir path = ([], false)) := by
  refine ⟨?_, ?_, ?_⟩
  · have hsuf : pindexPathTail.isSuffixOf (pindexPath dataDir pindexName) = true := by
      rw [List.isSuffixOf_iff_suffix]
      exact ⟨dataDir ++ [pathSepChar] ++ pindexName, by simp [pindexPath]⟩
    have hpre : (dataDir ++ [pathSepChar]).isPrefixOf
        (pindexPath dataDir pindexName) = true := by
      rw [List.isPrefixOf_iff_prefix]
      exact ⟨pindexName ++ pindexPathTail, by simp [pindexPath]⟩
    rw [parsePIndexPath, hsuf]
    simp only [Bool.true_eq_false, if_false, hpre]
    have hdrop : (pindexPath dataDir pindexName).drop
        (dataDir ++ [pathSepChar]).length = pindexName ++ pindexPathTail := by
      have : pindexPath dataDir pindexName =
          (dataDir ++ [pathSepChar]) ++ (pindexName ++ pindexPathTail) := by
        simp [pindexPath]
      rw [this, List.drop_left]
    simp only [hdrop]
    have hlen : (pindexName ++ pindexPathTail).length - pindexPathTail.length =
        pindexName.length := by
      simp
    rw [hlen, List.take_left]
  · intro h
    rw [parsePIndexPath, h]
    simp
  · intro h
    by_cases hs : pindexPathTail.isSuffixOf path = false
    · rw [parsePIndexPath, hs]
      simp
    · rw [parsePIndexPath]
      simp only [Bool.not_eq_false] at hs
      rw [hs]
      simp only [Bool.true_eq_false, if_false, h]
      simp

theorem parsePIndexPath_roundtrip_witness :
    parsePIndexPath ['d'] (pindexPath ['d'] ['x', '1']) = (['x', '1'], true) ∧
    parsePIndexPath ['d'] ['z'] = ([], false) :=
  ⟨(parsePIndexPath_roundtrip ['d'] ['x', '1'] ['z']).1,
   (parsePIndexPath_roundtrip ['d'] ['x', '1'] ['z']).2.1 (by decide)⟩

/-! ## Consistency-wait machinery (pindex_consistency + pindex_impl_vlite) -/

/-- A runtime consistency wait request (its DoneCh is represented by the
request's membership in released / drained lists). -/
structure ConsistencyWaitReq where
  partitionUUID : String
  consistencyLevel : String
  consistencySeq : Nat
deriving DecidableEq, Repr

/-- The ErrorConsistencyWait error: a status string and, per partition,
the observed (startSeq, endSeq) pair. -/
structure ErrorConsistencyWait where
  status : String
  startEndSeqs : List (String × (Nat × Nat))
deriving DecidableEq, Repr

/-- The error value a consistency waiter can observe: either an
ErrorConsistencyWait or a plain error message (none = success). -/
inductive WaitError where
  | consistency (e : ErrorConsistencyWait)
  | plain (msg : String)
deriving DecidableEq, Repr

/-- Which arm of the select in ConsistencyWaitDone fires first:
the cancel channel, or the done channel delivering `err` (none when the
channel was simply closed on success). -/
inductive WaitDoneEvent where
  | cancelled
  | done (err : Option WaitError)
deriving DecidableEq, Repr

/-- ConsistencyWaitDone: `seqStart` and `seqAtCancel` are the two currSeq()
observations (at entry, and inside the cancel arm). A cancel yields the
"cancelled" ErrorConsistencyWait carrying (seqStart, seqAtCancel) for the
partition; the done arm returns whatever the done channel delivered. -/
def consistencyWaitDone (partition : String) (seqStart seqAtCancel : Nat)
    (ev : WaitDoneEvent) : Option WaitError :=
  match ev with
  | .cancelled =>
    some (.consistency
      { status := "cancelled", startEndSeqs := [(partition, (seqStart, seqAtCancel))] })
  | .done err => err

/-- The per-partition state of a VLitePartition that the consistency and
ingest paths read and write: seqMax, seqMaxBatch, seqSnapEnd, the cached
lastUUID, and the queued wait requests (cwrQueue). -/
structure VLitePartitionState where
  seqMax : Nat
  seqMaxBatch : Nat
  seqSnapEnd : Nat
  lastUUID : String
  cwrQueue : List ConsistencyWaitReq
deriving DecidableEq, Repr

/-- The fresh partition state getPartitionUnlocked builds on first use
(and hence after a rollback rebuilt the VLite from zero). -/
def vliteFreshPartition : VLitePartitionState :=
  { seqMax := 0, seqMaxBatch := 0, seqSnapEnd := 0, lastUUID := "", cwrQueue := [] }

/-- How VLite.ConsistencyWait disposes of a request before any blocking:
immediate success (stale ok or already-satisfied), an immediate error, or
enqueueing on the partition's wait queue. -/
inductive VLiteWaitStart where
  | staleOk
  | unsupportedLevel (level : String)
  | mismatchedPartition
  | immediate
  | enqueued (cwr : ConsistencyWaitReq)
deriving DecidableEq, Repr

/-- VLite.ConsistencyWait up to its first blocking point: empty level
returns success at once; any level other than "at_plus" is an error; under
"at_plus" a non-empty partitionUUID different from lastUUID fails at once;
a seq not above seqMaxBatch succeeds at once (DoneCh closed); otherwise
the request is pushed onto the partition's cwrQueue. -/
def vliteConsistencyWait (st : VLitePartitionState) (partitionUUID level : String)
    (seq : Nat) : VLiteWaitStart × VLitePartitionState :=
  if level = "" then (.staleOk, st)
  else if level ≠ "at_plus" then (.unsupportedLevel level, st)
  else
    let cwr : ConsistencyWaitReq :=
      { partitionUUID := partitionUUID, consistencyLevel := level, consistencySeq := seq }
    if partitionUUID ≠ "" ∧ partitionUUID ≠ st.lastUUID then (.mismatchedPartition, st)
    else if st.seqMaxBatch < seq then
      (.enqueued cwr, { st with cwrQueue := st.cwrQueue ++ [cwr] })
    else (.immediate, st)

/-- applyBatchUnlocked after a successful flush: seqMaxBatch becomes
seqMax, and the pop-min loop releases (closes the DoneCh of) exactly the
queued requests whose seq is at most the new seqMaxBatch. Returns the new
state and the released requests. -/
def applyBatchUnlocked (st : VLitePartitionState) :
    VLitePartitionState × List ConsistencyWaitReq :=
  ({ st with seqMaxBatch := st.seqMax,
             cwrQueue := st.cwrQueue.filter (fun c => ¬ c.consistencySeq ≤ st.seqMax) },
   st.cwrQueue.filter (fun c => c.consistencySeq ≤ st.seqMax))

/-- One ingest-side operation on a partition (the Dest callbacks that
touch the sequence counters). -/
inductive PartitionOp where
  | dataUpdate (seq : Nat)
  | dataDelete (seq : Nat)
  | snapshotStart (snapStart snapEnd : Nat)
deriving DecidableEq, Repr

/-- updateSeqUnlocked: raise seqMax when the new seq is larger (persist);
then apply the batch unless the seq is still below the snapshot end.
`flushOk` is whether the gkvlite flush inside applyBatchUnlocked succeeds;
on failure the error is returned before seqMaxBatch is touched. -/
def updateSeqUnlocked (flushOk : Bool) (st : VLitePartitionState) (seq : Nat) :
    VLitePartitionState × List ConsistencyWaitReq :=
  let st1 := if st.seqMax < seq then { st with seqMax := seq } else st
  if seq < st1.seqSnapEnd then (st1, [])
  else if flushOk then applyBatchUnlocked st1 else (st1, [])

/-- The effect of one Dest callback on the partition state (the keyed
document mutations live in the external gkvlite collections and do not
touch these fields). SnapshotStart applies the pending batch and then
records the new snapshot end; a failed flush returns early. -/
def applyPartitionOp (flushOk : Bool) (st : VLitePartitionState) :
    PartitionOp → VLitePartitionState × List ConsistencyWaitReq
  | .dataUpdate seq => updateSeqUnlocked flushOk st seq
  | .dataDelete seq => updateSeqUnlocked flushOk st seq
  | .snapshotStart _ snapEnd =>
    if flushOk then
      let r := applyBatchUnlocked st
      ({ r.1 with seqSnapEnd := snapEnd }, r.2)
    else (st, [])

/-- Folding a whole sequence of Dest callbacks over a partition state. -/
def applyPartitionOps (flushOk : Bool) (st : VLitePartitionState)
    (ops : List PartitionOp) : VLitePartitionState :=
  ops.foldl (fun s op => (applyPartitionOp flushOk s op).1) st

/-- closeUnlocked drains every request still queued in every partition's
heap with the closeUnlocked error (each DoneCh receives it and is closed). -/
def vliteCloseDrain (parts : List VLitePartitionState) :
    List (ConsistencyWaitReq × WaitError) :=
  (parts.map (fun p =>
    p.cwrQueue.map (fun c => (c, WaitError.plain "vlite: closeUnlocked")))).flatten

/-- Single-step behaviour of a Dest callback on the sequence counters:
seqMaxBatch never decreases, the invariant seqMaxBatch ≤ seqMax is
preserved, and seqMax never decreases. -/
theorem applyPartitionOp_step (flushOk : Bool) (st : VLitePartitionState)
    (op : PartitionOp) (hinv : st.seqMaxBatch ≤ st.seqMax) :
    st.seqMaxBatch ≤ (applyPartitionOp flushOk st op).1.seqMaxBatch ∧
    (applyPartitionOp flushOk st op).1.seqMaxBatch ≤
      (applyPartitionOp flushOk st op).1.seqMax ∧
    st.seqMax ≤ (applyPartitionOp flushOk st op).1.seqMax := by
  cases op with
  | dataUpdate seq =>
    simp only [applyPartitionOp, updateSeqUnlocked, applyBatchUnlocked]
    split_ifs <;> simp_all <;> omega
  | dataDelete seq =>
    simp only [applyPartitionOp, updateSeqUnlocked, applyBatchUnlocked]
    split_ifs <;> simp_all <;> omega
  | snapshotStart snapStart snapEnd =>
    simp only [applyPartitionOp, applyBatchUnlocked]
    split_ifs <;> simp_all

/-- C4: across any sequence of DataUpdate, DataDelete, SnapshotStart and
batch-commit operations, a live partition's seqMaxBatch never decreases
(given the invariant seqMaxBatch ≤ seqMax, which holds from the fresh
state on); a single step either leaves seqMaxBatch unchanged or sets it
to seqMax; and the rebuilt-from-zero state after a Rollback has
seqMaxBatch = 0. -/
theorem seqMaxBatch_monotone (flushOk : Bool) (st : VLitePartitionState)
    (ops : List PartitionOp) (hinv : st.seqMaxBatch ≤ st.seqMax) :
    st.seqMaxBatch ≤ (applyPartitionOps flushOk st ops).seqMaxBatch ∧
    (applyPartitionOps flushOk st ops).seqMaxBatch ≤
      (applyPartitionOps flushOk st ops).seqMax ∧
    (∀ op : PartitionOp,
      (applyPartitionOp flushOk st op).1.seqMaxBatch = st.seqMaxBatch ∨
      (applyPartitionOp flushOk st op).1.seqMaxBatch =
        (applyPartitionOp flushOk st op).1.seqMax) ∧
    vliteFreshPartition.seqMaxBatch = 0 := by
  have hstep : ∀ (op : PartitionOp),
      (applyPartitionOp flushOk st op).1.seqMaxBatch = st.seqMaxBatch ∨
      (applyPartitionOp flushOk st op).1.seqMaxBatch =
        (applyPartitionOp flushOk st op).1.seqMax := by
    intro op
    cases op with
    | dataUpdate seq =>
      simp only [applyPartitionOp, updateSeqUnlocked, applyBatchUnlocked]
      split_ifs <;> simp_all
    | dataDelete seq =>
      simp only [applyPartitionOp, updateSeqUnlocked, applyBatchUnlocked]
      split_ifs <;> simp_all
    | snapshotStart snapStart snapEnd =>
      simp only [applyPartitionOp, applyBatchUnlocked]
      split_ifs <;> simp_all
  have hmain : ∀ (ops : List PartitionOp) (s : VLitePartitionState),
      s.seqMaxBatch ≤ s.seqMax →
      s.seqMaxBatch ≤ (applyPartitionOps flushOk s ops).seqMaxBatch ∧
      (applyPartitionOps flushOk s ops).seqMaxBatch ≤
        (applyPartitionOps flushOk s ops).seqMax := by
    intro ops
    induction ops with
    | nil =>
      intro s hs
      exact ⟨le_refl _, hs⟩
    | cons op rest ih =>
      intro s hs
      obtain ⟨h1, h2, _⟩ := applyPartitionOp_step flushOk s op hs
      obtain ⟨ih1, ih2⟩ := ih (applyPartitionOp flushOk s op).1 h2
      have heq : applyPartitionOps flushOk s (op :: rest) =
          applyPartitionOps flushOk (applyPartitionOp flushOk s op).1 rest := rfl
      rw [heq]
      exact ⟨le_trans h1 ih1, ih2⟩
  obtain ⟨h1, h2⟩ := hmain ops st hinv
  exact ⟨h1, h2, hstep, rfl⟩

/-- Witness data: the partition state used by the consistency-wait
witnesses (seqMax 10, seqMaxBatch 5). -/
def stWaitA : VLitePartitionState :=
  { seqMax := 10, seqMaxBatch := 5, seqSnapEnd := 0, lastUUID := "u", cwrQueue := [] }

/-- Witness data: an at_plus request for seq 7. -/
def cwrSeven : ConsistencyWaitReq :=
  { partitionUUID := "", consistencyLevel := "at_plus", consistencySeq := 7 }

/-- Witness data: stWaitA with cwrSeven queued. -/
def stWaitQ : VLitePartitionState :=
  { stWaitA with cwrQueue := [cwrSeven] }

theorem seqMaxBatch_monotone_witness :
    vliteFreshPartition.seqMaxBatch ≤
      (applyPartitionOps true vliteFreshPartition
        [.dataUpdate 3, .snapshotStart 3 5, .dataUpdate 4]).seqMaxBatch ∧
    (applyPartitionOps true vliteFreshPartition
        [.dataUpdate 3, .snapshotStart 3 5, .dataUpdate 4]).seqMaxBatch ≤
      (applyPartitionOps true vliteFreshPartition
        [.dataUpdate 3, .snapshotStart 3 5, .dataUpdate 4]).seqMax ∧
    (∀ op : PartitionOp,
      (applyPartitionOp true vliteFreshPartition op).1.seqMaxBatch =
        vliteFreshPartition.seqMaxBatch ∨
      (applyPartitionOp true vliteFreshPartition op).1.seqMaxBatch =
        (applyPartitionOp true vliteFreshPartition op).1.seqMax) ∧
    vliteFreshPartition.seqMaxBatch = 0 :=
  seqMaxBatch_monotone true vliteFreshPartition
    [.dataUpdate 3, .snapshotStart 3 5, .dataUpdate 4] (by decide)

/-- C1: the disposition of every VLite.ConsistencyWait call — empty level
succeeds at once; non-at_plus levels are rejected; a non-empty
partitionUUID different from lastUUID fails at once; seq ≤ seqMaxBatch
succeeds at once; anything else is enqueued on the partition's queue; and
a batch commit releases a queued request exactly when the new seqMaxBatch
has reached its seq (so any successful at_plus return has
seqMaxBatch ≥ seq at release). -/
theorem vliteConsistencyWait_spec (st : VLitePartitionState)
    (partitionUUID level : String) (seq : Nat) :
    (vliteConsistencyWait st partitionUUID "" seq = (.staleOk, st)) ∧
    (level ≠ "" → level ≠ "at_plus" →
      vliteConsistencyWait st partitionUUID level seq =
        (.unsupportedLevel level, st)) ∧
    (partitionUUID ≠ "" → partitionUUID ≠ st.lastUUID →
      vliteConsistencyWait st partitionUUID "at_plus" seq =
        (.mismatchedPartition, st)) ∧
    ((partitionUUID = "" ∨ partitionUUID = st.lastUUID) → seq ≤ st.seqMaxBatch →
      vliteConsistencyWait st partitionUUID "at_plus" seq = (.immediate, st)) ∧
    ((partitionUUID = "" ∨ partitionUUID = st.lastUUID) → st.seqMaxBatch < seq →
      vliteConsistencyWait st partitionUUID "at_plus" seq =
        (.enqueued { partitionUUID := partitionUUID, consistencyLevel := "at_plus",
                     consistencySeq := seq },
         { st with cwrQueue := st.cwrQueue ++
             [{ partitionUUID := partitionUUID, consistencyLevel := "at_plus",
                consistencySeq := seq }] })) ∧
    (∀ c : ConsistencyWaitReq, c ∈ (applyBatchUnlocked st).2 ↔
      c ∈ st.cwrQueue ∧ c.consistencySeq ≤ (applyBatchUnlocked st).1.seqMaxBatch) ∧
    (applyBatchUnlocked st).1.seqMaxBatch = st.seqMax := by
  have hn : ∀ u : String, u ≠ "" ∨ u = "" := fun u => ne_or_eq u ""
  refine ⟨?_, ?_, ?_, ?_, ?_, ?_, rfl⟩
  · simp [vliteConsistencyWait]
  · intro h1 h2
    simp [vliteConsistencyWait, h1, h2]
  · intro h1 h2
    have hcond : partitionUUID ≠ "" ∧ partitionUUID ≠ st.lastUUID := ⟨h1, h2⟩
    simp [vliteConsistencyWait, hcond]
  · intro h1 h2
    have hcond : ¬ (partitionUUID ≠ "" ∧ partitionUUID ≠ st.lastUUID) := by
      rcases h1 with h | h <;> simp [h]
    have hseq : ¬ st.seqMaxBatch < seq := by omega
    simp [vliteConsistencyWait, hcond, hseq]
  · intro h1 h2
    have hcond : ¬ (partitionUUID ≠ "" ∧ partitionUUID ≠ st.lastUUID) := by
      rcases h1 with h | h <;> simp [h]
    simp [vliteConsistencyWait, hcond, h2]
  · intro c
    simp [applyBatchUnlocked, List.mem_filter]

theorem vliteConsistencyWait_spec_witness :
    (vliteConsistencyWait stWaitA "x" "" 3 = (.staleOk, stWaitA)) ∧
    (vliteConsistencyWait stWaitA "x" "at" 3 = (.unsupportedLevel "at", stWaitA)) ∧
    (vliteConsistencyWait stWaitA "x" "at_plus" 3 = (.mismatchedPartition, stWaitA)) ∧
    (vliteConsistencyWait stWaitA "u" "at_plus" 5 = (.immediate, stWaitA)) ∧
    (vliteConsistencyWait stWaitA "" "at_plus" 7 = (.enqueued cwrSeven, stWaitQ)) ∧
    (cwrSeven ∈ (applyBatchUnlocked stWaitQ).2 ↔
      cwrSeven ∈ stWaitQ.cwrQueue ∧
        cwrSeven.consistencySeq ≤ (applyBatchUnlocked stWaitQ).1.seqMaxBatch) ∧
    (applyBatchUnlocked stWaitQ).1.seqMaxBatch = stWaitQ.seqMax := by
  refine ⟨(vliteConsistencyWait_spec stWaitA "x" "" 3).1,
    (vliteConsistencyWait_spec stWaitA "x" "at" 3).2.1 (by decide) (by decide),
    (vliteConsistencyWait_spec stWaitA "x" "at_plus" 3).2.2.1 (by decide) (by decide),
    (vliteConsistencyWait_spec stWaitA "u" "at_plus" 5).2.2.2.1
      (Or.inr rfl) (by decide),
    ?_,
    (vliteConsistencyWait_spec stWaitQ "" "" 7).2.2.2.2.2.1 cwrSeven,
    (vliteConsistencyWait_spec stWaitQ "" "" 7).2.2.2.2.2.2⟩
  have h5 := (vliteConsistencyWait_spec stWaitA "" "at_plus" 7).2.2.2.2.1
    (Or.inl rfl) (by decide)
  exact h5

/-- C7: closing the cancel channel makes the waiter return the
ErrorConsistencyWait with status "cancelled" mapping the partition to
(seqMaxBatch at wait start, seqMaxBatch at cancellation); and closing the
VLite drains every request still queued on any partition with the
closeUnlocked error. -/
theorem consistencyWaitDone_cancelled_spec (partition : String)
    (stStart stCancel : VLitePartitionState) (parts : List VLitePartitionState) :
    consistencyWaitDone partition stStart.seqMaxBatch stCancel.seqMaxBatch
        .cancelled =
      some (.consistency
        { status := "cancelled"
          startEndSeqs :=
            [(partition, (stStart.seqMaxBatch, stCancel.seqMaxBatch))] }) ∧
    (∀ p ∈ parts, ∀ c ∈ p.cwrQueue,
      (c, WaitError.plain "vlite: closeUnlocked") ∈ vliteCloseDrain parts) := by
  refine ⟨rfl, ?_⟩
  intro p hp c hc
  rw [vliteCloseDrain, List.mem_flatten]
  refine ⟨p.cwrQueue.map (fun c => (c, WaitError.plain "vlite: closeUnlocked")), ?_, ?_⟩
  · exact List.mem_map.mpr ⟨p, hp, rfl⟩
  · exact List.mem_map.mpr ⟨c, hc, rfl⟩

theorem consistencyWaitDone_cancelled_witness :
    consistencyWaitDone "vb7" stWaitA.seqMaxBatch stWaitQ.seqMaxBatch .cancelled =
      some (.consistency
        { status := "cancelled"
          startEndSeqs := [("vb7", (stWaitA.seqMaxBatch, stWaitQ.seqMaxBatch))] }) ∧
    (cwrSeven, WaitError.plain "vlite: closeUnlocked") ∈ vliteCloseDrain [stWaitQ] :=
  ⟨(consistencyWaitDone_cancelled_spec "vb7" stWaitA stWaitQ [stWaitQ]).1,
   (consistencyWaitDone_cancelled_spec "vb7" stWaitA stWaitQ [stWaitQ]).2
     stWaitQ (by decide) cwrSeven (by decide)⟩

/-! ## CalcPlan (the per-IndexDef planner loop) -/

/-- The presence of the instantiation hooks of a registered pindex
implementation type (a nil registry pointer or a missing New/Open hook is
a false flag). -/
structure PIndexImplTypeM where
  hasNew : Bool
  hasOpen : Bool
deriving DecidableEq, Repr

/-- The plan-frozen branch of CalcPlan: copy over every previous
PlanPIndex whose IndexName and IndexUUID match this IndexDef. -/
def calcPlanFrozenCopy (indexDef : IndexDef) (prev : List (String × PlanPIndex))
    (acc : List (String × PlanPIndex)) : List (String × PlanPIndex) :=
  prev.foldl
    (fun a kv =>
      if kv.2.indexName = indexDef.name ∧ kv.2.indexUUID = indexDef.uuid then
        alSet a kv.1 kv.2
      else a)
    acc

/-- The body of CalcPlan's per-IndexDef loop. `impls` is the
PIndexImplTypes registry; `sourcePartsFn` stands for the external
DataSourcePartitions helper (none = error, which CalcPlan logs and
skips); `uuidGen` feeds NewUUID; `assignFn` stands for the external
blance placement (BlancePlanPIndexes), which rewrites only the Nodes maps
of the PlanPIndexes just split off. -/
def calcPlanIndexDef (impls : List (String × PIndexImplTypeM))
    (sourcePartsFn : IndexDef → Option (List String)) (uuidGen : Nat → String)
    (assignFn : PlanPIndex → List (String × PlanPIndexNode))
    (prev : List (String × PlanPIndex))
    (acc : List (String × PlanPIndex)) (indexDef : IndexDef) :
    List (String × PlanPIndex) :=
  if indexDef.planParams.planFrozen then
    calcPlanFrozenCopy indexDef prev acc
  else
    match alGet impls indexDef.type with
    | none => acc
    | some t =>
      if t.hasNew = false ∨ t.hasOpen = false then acc
      else
        match sourcePartsFn indexDef with
        | none => acc
        | some parts =>
          (splitIndexDefIntoPlanPIndexes indexDef uuidGen parts).foldl
            (fun a p => alSet a p.name { p with nodes := assignFn p })
            acc

/-- CalcPlan over the (map-iteration-ordered) list of IndexDefs, starting
from the empty NewPlanPIndexes collection. -/
def calcPlan (impls : List (String × PIndexImplTypeM))
    (sourcePartsFn : IndexDef → Option (List String)) (uuidGen : Nat → String)
    (assignFn : PlanPIndex → List (String × PlanPIndexNode))
    (prev : List (String × PlanPIndex)) (defs : List IndexDef) :
    List (String × PlanPIndex) :=
  defs.foldl (calcPlanIndexDef impls sourcePartsFn uuidGen assignFn prev) []

theorem alGet_eq_none_of_not_mem_keys {α : Type} (m : List (String × α)) (k : String)
    (h : k ∉ m.map Prod.fst) : alGet m k = none := by
  induction m with
  | nil => rfl
  | cons hd tl ih =>
    obtain ⟨k0, v0⟩ := hd
    simp only [List.map_cons, List.mem_cons] at h
    push_neg at h
    have hne : k0 ≠ k := fun he => h.1 he.symm
    simp only [alGet, if_neg hne]
    exact ih h.2

theorem calcPlanFrozenCopy_lookup (d : IndexDef) (prev : List (String × PlanPIndex))
    (hnd : (prev.map Prod.fst).Nodup) (acc : List (String × PlanPIndex)) (k : String) :
    alGet (calcPlanFrozenCopy d prev acc) k =
      match alGet prev k with
      | some p =>
        if p.indexName = d.name ∧ p.indexUUID = d.uuid then some p else alGet acc k
      | none => alGet acc k := by
  induction prev generalizing acc with
  | nil => rfl
  | cons hd rest ih =>
    obtain ⟨k0, p0⟩ := hd
    simp only [List.map_cons, List.nodup_cons] at hnd
    obtain ⟨hk0, hndrest⟩ := hnd
    have hfold : calcPlanFrozenCopy d ((k0, p0) :: rest) acc =
        calcPlanFrozenCopy d rest
          (if p0.indexName = d.name ∧ p0.indexUUID = d.uuid then alSet acc k0 p0
           else acc) := rfl
    rw [hfold, ih hndrest]
    by_cases hk : k0 = k
    · subst hk
      have hrest : alGet rest k0 = none := alGet_eq_none_of_not_mem_keys rest k0 hk0
      rw [hrest]
      have hprev : alGet ((k0, p0) :: rest) k0 = some p0 := by
        simp [alGet]
      rw [hprev]
      by_cases hmatch : p0.indexName = d.name ∧ p0.indexUUID = d.uuid
      · simp only [if_pos hmatch]
        rw [alGet_alSet]
        simp
      · simp only [if_neg hmatch]
    · have hprev : alGet ((k0, p0) :: rest) k = alGet rest k := by
        simp [alGet, hk]
      rw [hprev]
      by_cases hmatch : p0.indexName = d.name ∧ p0.indexUUID = d.uuid
      · simp only [if_pos hmatch]
        have hacc : alGet (alSet acc k0 p0) k = alGet acc k := by
          rw [alGet_alSet, if_neg hk]
        cases halg : alGet rest k with
        | none => simpa using hacc
        | some p => simp [hacc]
      · simp only [if_neg hmatch]

/-- C6: for a plan-frozen IndexDef the planner does not recompute
placement: the per-IndexDef step merges onto the accumulator exactly the
previous PlanPIndexes whose (IndexName, IndexUUID) match the IndexDef,
unchanged; planning that IndexDef alone yields exactly those previous
entries; and the result ignores any changed maxPartitionsPerPIndex. -/
theorem calcPlan_planFrozen_spec (impls : List (String × PIndexImplTypeM))
    (sourcePartsFn : IndexDef → Option (List String)) (uuidGen : Nat → String)
    (assignFn : PlanPIndex → List (String × PlanPIndexNode)) (d : IndexDef)
    (prev acc : List (String × PlanPIndex)) (k : String)
    (hf : d.planParams.planFrozen = true)
    (hnd : (prev.map Prod.fst).Nodup) :
    (alGet (calcPlanIndexDef impls sourcePartsFn uuidGen assignFn prev acc d) k =
      match alGet prev k with
      | some p =>
        if p.indexName = d.name ∧ p.indexUUID = d.uuid then some p else alGet acc k
      | none => alGet acc k) ∧
    (alGet (calcPlan impls sourcePartsFn uuidGen assignFn prev [d]) k =
      match alGet prev k with
      | some p =>
        if p.indexName = d.name ∧ p.indexUUID = d.uuid then some p else none
      | none => none) ∧
    (∀ m : Int, calcPlan impls sourcePartsFn uuidGen assignFn prev
        [{ d with planParams :=
             { d.planParams with maxPartitionsPerPIndex := m } }] =
      calcPlan impls sourcePartsFn uuidGen assignFn prev [d]) := by
  have hstep : ∀ a, calcPlanIndexDef impls sourcePartsFn uuidGen assignFn prev a d =
      calcPlanFrozenCopy d prev a := by
    intro a
    simp [calcPlanIndexDef, hf]
  refine ⟨?_, ?_, ?_⟩
  · rw [hstep acc, calcPlanFrozenCopy_lookup d prev hnd acc k]
  · have hplan : calcPlan impls sourcePartsFn uuidGen assignFn prev [d] =
        calcPlanFrozenCopy d prev [] := hstep []
    rw [hplan, calcPlanFrozenCopy_lookup d prev hnd [] k]
    cases alGet prev k with
    | none => rfl
    | some p => rfl
  · intro m
    have hstep2 : calcPlan impls sourcePartsFn uuidGen assignFn prev
        [{ d with planParams :=
             { d.planParams with maxPartitionsPerPIndex := m } }] =
        calcPlanFrozenCopy d prev [] := by
      simp only [calcPlan, List.foldl_cons, List.foldl_nil, calcPlanIndexDef, hf,
        if_true]
      rfl
    rw [hstep2, ← hstep []]
    rfl

/-- Witness data: a plan-frozen IndexDef for index ("i", "U") whose
maxPartitionsPerPIndex was changed to 2. -/
def indexDefFrozen : IndexDef :=
  { indexDefTen with planParams :=
      { maxPartitionsPerPIndex := 2, numReplicas := 0, planFrozen := true } }

/-- Witness data: a previous PlanPIndex of index ("i", "U"). -/
def ppMatchW : PlanPIndex :=
  { name := "pA", uuid := "ua", indexType := "engine", indexName := "i"
    indexUUID := "U", indexParams := "", sourceType := "primary"
    sourceName := "s", sourceUUID := "", sourceParams := ""
    sourcePartitions := "0,1,2,3", nodes := [("n1", { canRead := true, canWrite := true, priority := 0 })] }

/-- Witness data: a previous PlanPIndex of a different index ("j", "V"). -/
def ppOtherW : PlanPIndex :=
  { ppMatchW with name := "pB", uuid := "ub", indexName := "j", indexUUID := "V" }

/-- Witness data: the previous PlanPIndexes map. -/
def prevPlanW : List (String × PlanPIndex) :=
  [("pA", ppMatchW), ("pB", ppOtherW)]

/-- Witness data: a registry with one instantiatable engine type and the
alias type registered without New/Open hooks. -/
def implsW : List (String × PIndexImplTypeM) :=
  [("engine", { hasNew := true, hasOpen := true }),
   ("alias", { hasNew := false, hasOpen := false })]

/-- Witness data: a stand-in DataSourcePartitions helper. -/
def sourcePartsFnW (_d : IndexDef) : Option (List String) :=
  some ["0", "1"]

/-- Witness data: a stand-in blance node assignment. -/
def assignFnW (_p : PlanPIndex) : List (String × PlanPIndexNode) :=
  [("n1", { canRead := true, canWrite := true, priority := 0 })]

theorem calcPlan_planFrozen_witness :
    alGet (calcPlan implsW sourcePartsFnW uuidGenW assignFnW prevPlanW
      [indexDefFrozen]) "pA" = some ppMatchW ∧
    alGet (calcPlan implsW sourcePartsFnW uuidGenW assignFnW prevPlanW
      [indexDefFrozen]) "pB" = none := by
  constructor
  · refine Eq.trans ((calcPlan_planFrozen_spec implsW sourcePartsFnW uuidGenW
      assignFnW indexDefFrozen prevPlanW [] "pA" rfl (by decide)).2.1) ?_
    decide
  · refine Eq.trans ((calcPlan_planFrozen_spec implsW sourcePartsFnW uuidGenW
      assignFnW indexDefFrozen prevPlanW [] "pB" rfl (by decide)).2.1) ?_
    decide

theorem calcPlanIndexDef_skip (impls : List (String × PIndexImplTypeM))
    (sourcePartsFn : IndexDef → Option (List String)) (uuidGen : Nat → String)
    (assignFn : PlanPIndex → List (String × PlanPIndexNode))
    (prev : List (String × PlanPIndex)) (d : IndexDef)
    (hnf : d.planParams.planFrozen = false)
    (hskip : alGet impls d.type = none ∨
      ∃ t, alGet impls d.type = some t ∧ (t.hasNew = false ∨ t.hasOpen = false)) :
    ∀ acc, calcPlanIndexDef impls sourcePartsFn uuidGen assignFn prev acc d = acc := by
  intro acc
  rcases hskip with h | ⟨t, ht, hflags⟩
  · simp [calcPlanIndexDef, hnf, h]
  · simp [calcPlanIndexDef, hnf, ht, hflags]

/-- C8: an IndexDef whose type has no instantiatable implementation (no
registry entry, or missing New/Open hooks, e.g. the alias type) is
silently skipped by CalcPlan — it contributes nothing and raises no
error — while the other IndexDefs are planned exactly as without it. -/
theorem calcPlan_skips_unknown_type (impls : List (String × PIndexImplTypeM))
    (sourcePartsFn : IndexDef → Option (List String)) (uuidGen : Nat → String)
    (assignFn : PlanPIndex → List (String × PlanPIndexNode))
    (prev acc : List (String × PlanPIndex)) (d : IndexDef) (l1 l2 : List IndexDef)
    (hnf : d.planParams.planFrozen = false)
    (hskip : alGet impls d.type = none ∨
      ∃ t, alGet impls d.type = some t ∧ (t.hasNew = false ∨ t.hasOpen = false)) :
    calcPlanIndexDef impls sourcePartsFn uuidGen assignFn prev acc d = acc ∧
    calcPlan impls sourcePartsFn uuidGen assignFn prev (l1 ++ d :: l2) =
      calcPlan impls sourcePartsFn uuidGen assignFn prev (l1 ++ l2) := by
  have hstep := calcPlanIndexDef_skip impls sourcePartsFn uuidGen assignFn prev d
    hnf hskip
  refine ⟨hstep acc, ?_⟩
  simp only [calcPlan, List.foldl_append, List.foldl_cons]
  rw [hstep]

/-- Witness data: an alias IndexDef (no engine New/Open hooks). -/
def indexDefAlias : IndexDef :=
  { indexDefTen with name := "a", uuid := "A", type := "alias" }

theorem calcPlan_skips_unknown_type_witness :
    calcPlanIndexDef implsW sourcePartsFnW uuidGenW assignFnW prevPlanW []
      indexDefAlias = [] ∧
    calcPlan implsW sourcePartsFnW uuidGenW assignFnW prevPlanW
        ([] ++ indexDefAlias :: [indexDefTen]) =
      calcPlan implsW sourcePartsFnW uuidGenW assignFnW prevPlanW
        ([] ++ [indexDefTen]) :=
  calcPlan_skips_unknown_type implsW sourcePartsFnW uuidGenW assignFnW
    prevPlanW [] indexDefAlias [] [indexDefTen] rfl
    (Or.inr ⟨{ hasNew := false, hasOpen := false }, by decide, Or.inl rfl⟩)

/-! ## Alias resolution (bleveIndexAliasForUserIndexAlias) -/

/-- The visit ceiling for alias resolution. -/
def maxAliasTargets : Nat := 50000

/-- The error cases of fillAlias inside
bleveIndexAliasForUserIndexAlias. -/
inductive AliasFillErr where
  | noAliasDef
  | wrongAliasType
  | mismatchedAliasUUID
  | tooManyTargets
  | noTargetDef
  | mismatchedTargetUUID
  | unsupportedTargetType
deriving DecidableEq, Repr

/-- The view of an IndexDef that alias resolution reads: its uuid, its
type tag, and (for the alias type) the target list parsed out of its
params JSON — (targetName, AliasParamsTarget.IndexUUID) pairs in map
iteration order. -/
structure AliasIndexDefM where
  uuid : String
  type : String
  targets : List (String × String)
deriving DecidableEq, Repr

mutual

/-- The recursive fillAlias closure of
bleveIndexAliasForUserIndexAlias, with an explicit recursion-depth fuel:
a `none` result means the recursion did not finish within `fuel` nested
alias expansions (the Go original has no such bound and simply recurses).
`num` is the shared engine-endpoint counter; `acc` accumulates the
concrete (bleve) endpoints added to the alias. -/
def fillAlias (cfg : List (String × AliasIndexDefM)) (fuel : Nat)
    (aliasName aliasUUID : String) (num : Nat) (acc : List String) :
    Option (Except AliasFillErr (Nat × List String)) :=
  match fuel with
  | 0 => none
  | Nat.succ fuel1 =>
    match alGet cfg aliasName with
    | none => some (Except.error .noAliasDef)
    | some aliasDef =>
      if aliasDef.type ≠ "alias" then some (Except.error .wrongAliasType)
      else if aliasUUID ≠ "" ∧ aliasUUID ≠ aliasDef.uuid then
        some (Except.error .mismatchedAliasUUID)
      else fillAliasTargets cfg fuel1 aliasDef.targets num acc

/-- The loop over an alias definition's targets: the visit-counter check
(num > maxAliasTargets fails with the too-many/cycle error), the target
lookup and UUID check, recursion into alias targets, and the bleve branch
that adds one engine endpoint and increments num. -/
def fillAliasTargets (cfg : List (String × AliasIndexDefM)) (fuel : Nat)
    (targets : List (String × String)) (num : Nat) (acc : List String) :
    Option (Except AliasFillErr (Nat × List String)) :=
  match targets with
  | [] => some (Except.ok (num, acc))
  | (targetName, targetUUID) :: rest =>
    if maxAliasTargets < num then some (Except.error .tooManyTargets)
    else
      match alGet cfg targetName with
      | none => some (Except.error .noTargetDef)
      | some targetDef =>
        if targetUUID ≠ "" ∧ targetUUID ≠ targetDef.uuid then
          some (Except.error .mismatchedTargetUUID)
        else if targetDef.type = "alias" then
          match fillAlias cfg fuel targetName targetUUID num acc with
          | none => none
          | some (Except.error e) => some (Except.error e)
          | some (Except.ok r) => fillAliasTargets cfg fuel rest r.1 r.2
        else if "bleve".isPrefixOf targetDef.type then
          fillAliasTargets cfg fuel rest (num + 1) (acc ++ [targetName])
        else some (Except.error .unsupportedTargetType)

end

/-- The two-alias cycle of the spec's scenario: alias A targets B and
alias B targets A, with no engine targets anywhere. -/
def aliasCycleCfg : List (String × AliasIndexDefM) :=
  [("A", { uuid := "uA", type := "alias", targets := [("B", "")] }),
   ("B", { uuid := "uB", type := "alias", targets := [("A", "")] })]

/-- C5 (evaluating the code at the failing input): on the pure alias
cycle A -> B -> A the resolution never finishes at any recursion depth
and in particular never returns the cycle-or-too-wide error: the visit
counter `num` counts only engine endpoints, and a cycle made only of
aliases adds none, so the ceiling check never fires and the code
recurses forever instead of failing. -/
theorem aliasCycle_diverges : ∀ fuel : Nat,
    fillAlias aliasCycleCfg fuel "A" "" 0 [] = none ∧
    fillAlias aliasCycleCfg fuel "B" "" 0 [] = none ∧
    ∀ e : AliasFillErr, fillAlias aliasCycleCfg fuel "A" "" 0 [] ≠
      some (Except.error e) := by
  have hmain : ∀ fuel : Nat,
      fillAlias aliasCycleCfg fuel "A" "" 0 [] = none ∧
      fillAlias aliasCycleCfg fuel "B" "" 0 [] = none := by
    intro fuel
    induction fuel with
    | zero => exact ⟨by simp [fillAlias], by simp [fillAlias]⟩
    | succ n ih =>
      have hA : alGet aliasCycleCfg "A" =
          some { uuid := "uA", type := "alias", targets := [("B", "")] } := rfl
      have hB : alGet aliasCycleCfg "B" =
          some { uuid := "uB", type := "alias", targets := [("A", "")] } := rfl
      constructor
      · simp [fillAlias, fillAliasTargets, hA, hB, maxAliasTargets, ih.1, ih.2]
      · simp [fillAlias, fillAliasTargets, hA, hB, maxAliasTargets, ih.1, ih.2]
  intro fuel
  refine ⟨(hmain fuel).1, (hmain fuel).2, ?_⟩
  intro e
  rw [(hmain fuel).1]
  simp

/-- Fuel soundness for the embedding: a result reached within some
recursion depth is stable under more fuel, so `none at every fuel` is
exactly divergence of the unbounded Go recursion. -/
theorem fillAlias_fuel_mono (cfg : List (String × AliasIndexDefM)) :
    ∀ fuel : Nat,
    (∀ name uuid num acc r, fillAlias cfg fuel name uuid num acc = some r →
       fillAlias cfg (fuel + 1) name uuid num acc = some r) ∧
    (∀ ts num acc r, fillAliasTargets cfg fuel ts num acc = some r →
       fillAliasTargets cfg (fuel + 1) ts num acc = some r) := by
  intro fuel
  induction fuel with
  | zero =>
    constructor
    · intro name uuid num acc r h
      simp [fillAlias] at h
    · intro ts
      induction ts with
      | nil =>
        intro num acc r h
        rw [fillAliasTargets] at h ⊢
        exact h
      | cons t rest ihts =>
        intro num acc r h
        obtain ⟨tn, tu⟩ := t
        rw [fillAliasTargets] at h ⊢
        by_cases h1 : maxAliasTargets < num
        · rw [if_pos h1] at h ⊢; exact h
        · rw [if_neg h1] at h ⊢
          cases halg : alGet cfg tn with
          | none =>
            rw [halg] at h
            exact h
          | some td =>
            rw [halg] at h
            dsimp only at h ⊢
            by_cases h2 : tu ≠ "" ∧ tu ≠ td.uuid
            · rw [if_pos h2] at h ⊢; exact h
            · rw [if_neg h2] at h ⊢
              by_cases h3 : td.type = "alias"
              · rw [if_pos h3] at h ⊢
                rw [show fillAlias cfg 0 tn tu num acc = none from by
                  simp [fillAlias]] at h
                simp at h
              · rw [if_neg h3] at h ⊢
                by_cases h4 : ("bleve".isPrefixOf td.type = true)
                · rw [if_pos h4] at h ⊢
                  exact ihts _ _ _ h
                · rw [if_neg h4] at h ⊢
                  exact h
  | succ n ih =>
    have hfa : ∀ (name uuid : String) (num : Nat) (acc : List String) r,
        fillAlias cfg (n + 1) name uuid num acc = some r →
        fillAlias cfg (n + 1 + 1) name uuid num acc = some r := by
      intro name uuid num acc r h
      rw [fillAlias] at h ⊢
      cases halg : alGet cfg name with
      | none =>
        rw [halg] at h
        exact h
      | some ad =>
        rw [halg] at h
        dsimp only at h ⊢
        by_cases h1 : ad.type ≠ "alias"
        · rw [if_pos h1] at h ⊢; exact h
        · rw [if_neg h1] at h ⊢
          by_cases h2 : uuid ≠ "" ∧ uuid ≠ ad.uuid
          · rw [if_pos h2] at h ⊢; exact h
          · rw [if_neg h2] at h ⊢
            exact ih.2 _ _ _ _ h
    refine ⟨hfa, ?_⟩
    intro ts
    induction ts with
    | nil =>
      intro num acc r h
      rw [fillAliasTargets] at h ⊢
      exact h
    | cons t rest ihts =>
      intro num acc r h
      obtain ⟨tn, tu⟩ := t
      rw [fillAliasTargets] at h ⊢
      by_cases h1 : maxAliasTargets < num
      · rw [if_pos h1] at h ⊢; exact h
      · rw [if_neg h1] at h ⊢
        cases halg : alGet cfg tn with
        | none =>
          rw [halg] at h
          exact h
        | some td =>
          rw [halg] at h
          dsimp only at h ⊢
          by_cases h2 : tu ≠ "" ∧ tu ≠ td.uuid
          · rw [if_pos h2] at h ⊢; exact h
          · rw [if_neg h2] at h ⊢
            by_cases h3 : td.type = "alias"
            · rw [if_pos h3] at h ⊢
              cases hrec : fillAlias cfg (n + 1) tn tu num acc with
              | none =>
                rw [hrec] at h
                simp at h
              | some rr =>
                rw [hrec] at h
                rw [hfa _ _ _ _ _ hrec]
                cases rr with
                | error e => exact h
                | ok p => exact ihts _ _ _ h
            · rw [if_neg h3] at h ⊢
              by_cases h4 : ("bleve".isPrefixOf td.type = true)
              · rw [if_pos h4] at h ⊢
                exact ihts _ _ _ h
              · rw [if_neg h4] at h ⊢
                exact h

/-! ## Rebalancer assignment steps (cmd/mcp) -/

/-- A (state, op) pair of the rebalancer's currStates table. -/
structure StateOp where
  state : String
  op : String
deriving DecidableEq, Repr

/-- currStates: index -> partition -> node -> stateOp, as nested Go maps. -/
abbrev CurrStates : Type :=
  List (String × List (String × List (String × StateOp)))

/-- Reading one slot of currStates (missing inner maps read as empty, as
the Go code lazily allocates them). -/
def currStatesGet (cs : CurrStates) (index partition node : String) :
    Option StateOp :=
  alGet ((alGet ((alGet cs index).getD []) partition).getD []) node

/-- assignPartitionCurrStates: an "add" op aimed at a slot that already
holds a non-empty state is an error; otherwise the slot is set to
(state, op). -/
def assignPartitionCurrStates (cs : CurrStates)
    (index partition node state op : String) : Except String CurrStates :=
  let partitions := (alGet cs index).getD []
  let nodes := (alGet partitions partition).getD []
  let write : CurrStates :=
    alSet cs index (alSet partitions partition
      (alSet nodes node { state := state, op := op }))
  match alGet nodes node with
  | some so =>
    if op = "add" ∧ so.state ≠ "" then
      Except.error "assignPartitionCurrStates: op was add when exists"
    else Except.ok write
  | none => Except.ok write

/-- updatePlanPIndexes: find the targeted PlanPIndex (falling back to a
copy, with an emptied node map, of the rebalancer's endPlanPIndexes
entry); bump its UUID to the fresh NewUUID; and apply the step to its
node map — "add" requires the node to be absent, any other op requires it
present, "del" removes it, and the entry written carries the
CanRead/CanWrite of the per-node plan-param override (`npp`, standing for
GetNodePlanParam over the IndexDef's NodePlanParams) and priority
len(nodes) for a replica, 0 otherwise. -/
def updatePlanPIndexes (plan endPlan : List (String × PlanPIndex))
    (newUUID : String) (npp : String → String → Option (Bool × Bool))
    (partition node state op : String) :
    Except String (List (String × PlanPIndex)) :=
  let found : List (String × PlanPIndex) × Option PlanPIndex :=
    match alGet plan partition with
    | some pp => (plan, some pp)
    | none =>
      match alGet endPlan partition with
      | some ep => (alSet plan partition { ep with nodes := [] },
                    some { ep with nodes := [] })
      | none => (plan, none)
  match found.2 with
  | none => Except.error "assignPartition: no planPIndex"
  | some pp0 =>
    let pp := { pp0 with uuid := newUUID }
    let crw := (npp node partition).getD (true, true)
    let priority : Int := if state = "replica" then (pp.nodes.length : Int) else 0
    let nodeVal : PlanPIndexNode :=
      { canRead := crw.1, canWrite := crw.2, priority := priority }
    if op = "add" then
      match alGet pp.nodes node with
      | some _ => Except.error "assignPartition: planPIndex already exists"
      | none =>
        Except.ok (alSet found.1 partition
          { pp with nodes := alSet pp.nodes node nodeVal })
    else
      match alGet pp.nodes node with
      | none => Except.error "assignPartition: planPIndex missing"
      | some _ =>
        if op = "del" then
          Except.ok (alSet found.1 partition
            { pp with nodes := alDel pp.nodes node })
        else
          Except.ok (alSet found.1 partition
            { pp with nodes := alSet pp.nodes node nodeVal })

/-- Modelled from the spec: the Cfg store's planPIndexes value with its
CAS token (the Cfg implementations are not among these sources; the spec
gives Set(key, bytes, cas) -> newCas | CASMismatch, linearizable per
key). -/
structure CfgStoreM where
  plan : List (String × PlanPIndex)
  cas : Nat
deriving DecidableEq, Repr

/-- Modelled from the spec: CfgSetPlanPIndexes — the CAS-guarded write of
the whole PlanPIndexes value. -/
def cfgSetPlanPIndexes (store : CfgStoreM) (v : List (String × PlanPIndex))
    (cas : Nat) : Except String CfgStoreM :=
  if cas = store.cas then Except.ok { plan := v, cas := cas + 1 }
  else Except.error "CAS mismatch"

/-- The rebalancer's assignPartition: validate the step against
currStates, look up the IndexDef, read the plan under CAS (readStore is
the store as PlannerGetPlanPIndexes observed it), mutate the targeted
PlanPIndex, and write back with the read CAS against writeStore (the
store at write time — different from readStore exactly when a concurrent
planner wrote in between). A lost CAS is returned as an error; the
function performs no retry. -/
def assignPartition (cs : CurrStates) (indexDefs : List (String × IndexDef))
    (endPlan : List (String × PlanPIndex)) (readStore writeStore : CfgStoreM)
    (newUUID : String) (npp : String → String → Option (Bool × Bool))
    (index partition node state op : String) :
    Except String (CurrStates × CfgStoreM) :=
  match assignPartitionCurrStates cs index partition node state op with
  | Except.error e => Except.error e
  | Except.ok cs1 =>
    match alGet indexDefs index with
    | none => Except.error "assignPartition: no indexDef"
    | some _indexDef =>
      match updatePlanPIndexes readStore.plan endPlan newUUID npp
          partition node state op with
      | Except.error e => Except.error e
      | Except.ok plan1 =>
        match cfgSetPlanPIndexes writeStore plan1 readStore.cas with
        | Except.error _ =>
          Except.error "assignPartition: update plan, perhaps a concurrent planner won"
        | Except.ok store1 => Except.ok (cs1, store1)

/-- C9 (amended): the rebalancer validates an "add" against currStates
(occupied non-empty slot: error) and against the plan's node map (node
already present: error); a successful step rewrites only the targeted
PlanPIndex — node map changed exactly as the op dictates and UUID bumped
to the fresh value — and the plan is written back under the CAS observed
at read time; a lost CAS surfaces as an error (the code does not retry). -/
theorem assignPartition_spec (cs : CurrStates)
    (indexDefs : List (String × IndexDef)) (endPlan : List (String × PlanPIndex))
    (readStore writeStore : CfgStoreM) (newUUID : String)
    (npp : String → String → Option (Bool × Bool))
    (index partition node state : String) :
    (∀ so, currStatesGet cs index partition node = some so → so.state ≠ "" →
      assignPartitionCurrStates cs index partition node state "add" =
        Except.error "assignPartitionCurrStates: op was add when exists") ∧
    (∀ pp nd, alGet readStore.plan partition = some pp →
      alGet pp.nodes node = some nd →
      updatePlanPIndexes readStore.plan endPlan newUUID npp
          partition node state "add" =
        Except.error "assignPartition: planPIndex already exists") ∧
    (∀ pp, alGet readStore.plan partition = some pp →
      alGet pp.nodes node = none →
      updatePlanPIndexes readStore.plan endPlan newUUID npp
          partition node state "add" =
        Except.ok (alSet readStore.plan partition
          { pp with
              uuid := newUUID
              nodes := alSet pp.nodes node
                { canRead := ((npp node partition).getD (true, true)).1
                  canWrite := ((npp node partition).getD (true, true)).2
                  priority :=
                    if state = "replica" then (pp.nodes.length : Int) else 0 } })) ∧
    (∀ op plan1, updatePlanPIndexes readStore.plan endPlan newUUID npp
        partition node state op = Except.ok plan1 →
      ∀ k, k ≠ partition → alGet plan1 k = alGet readStore.plan k) ∧
    (∀ op cs1 plan1 d, readStore.cas = writeStore.cas →
      assignPartitionCurrStates cs index partition node state op =
        Except.ok cs1 →
      alGet indexDefs index = some d →
      updatePlanPIndexes readStore.plan endPlan newUUID npp
          partition node state op = Except.ok plan1 →
      assignPartition cs indexDefs endPlan readStore writeStore newUUID npp
          index partition node state op =
        Except.ok (cs1, { plan := plan1, cas := readStore.cas + 1 })) ∧
    (∀ op cs1 plan1 d, readStore.cas ≠ writeStore.cas →
      assignPartitionCurrStates cs index partition node state op =
        Except.ok cs1 →
      alGet indexDefs index = some d →
      updatePlanPIndexes readStore.plan endPlan newUUID npp
          partition node state op = Except.ok plan1 →
      assignPartition cs indexDefs endPlan readStore writeStore newUUID npp
          index partition node state op =
        Except.error
          "assignPartition: update plan, perhaps a concurrent planner won") := by
  refine ⟨?_, ?_, ?_, ?_, ?_, ?_⟩
  · intro so h hs
    unfold currStatesGet at h
    unfold assignPartitionCurrStates
    dsimp only
    rw [h]
    simp [hs]
  · intro pp nd hpp hnd
    unfold updatePlanPIndexes
    rw [hpp]
    dsimp only
    rw [if_pos rfl, hnd]
  · intro pp hpp hnd
    unfold updatePlanPIndexes
    rw [hpp]
    dsimp only
    rw [if_pos rfl, hnd]
  · intro op plan1 h k hk
    have hne : ¬ (partition = k) := fun he => hk he.symm
    unfold updatePlanPIndexes at h
    cases hpp : alGet readStore.plan partition with
    | some pp =>
      rw [hpp] at h
      dsimp only at h
      by_cases hop : op = "add"
      · rw [if_pos hop] at h
        cases hnd : alGet pp.nodes node with
        | some nd => rw [hnd] at h; simp at h
        | none =>
          rw [hnd] at h
          rw [Except.ok.injEq] at h
          subst h
          rw [alGet_alSet, if_neg hne]
      · rw [if_neg hop] at h
        cases hnd : alGet pp.nodes node with
        | none => rw [hnd] at h; simp at h
        | some nd =>
          rw [hnd] at h
          by_cases hdel : op = "del"
          · rw [if_pos hdel] at h
            rw [Except.ok.injEq] at h
            subst h
            rw [alGet_alSet, if_neg hne]
          · rw [if_neg hdel] at h
            rw [Except.ok.injEq] at h
            subst h
            rw [alGet_alSet, if_neg hne]
    | none =>
      rw [hpp] at h
      cases hep : alGet endPlan partition with
      | none => rw [hep] at h; simp at h
      | some ep =>
        rw [hep] at h
        dsimp only at h
        by_cases hop : op = "add"
        · rw [if_pos hop] at h
          cases hnd : alGet (List.nil : List (String × PlanPIndexNode)) node with
          | some nd => simp [alGet] at hnd
          | none =>
            rw [show alGet ({ ep with nodes := ([] : List (String × PlanPIndexNode)) }
                  : PlanPIndex).nodes node = none from rfl] at h
            rw [Except.ok.injEq] at h
            subst h
            rw [alGet_alSet, if_neg hne, alGet_alSet, if_neg hne]
        · rw [if_neg hop] at h
          rw [show alGet ({ ep with nodes := ([] : List (String × PlanPIndexNode)) }
                : PlanPIndex).nodes node = none from rfl] at h
          simp at h
  · intro op cs1 plan1 d hcas h1 h2 h3
    unfold assignPartition
    rw [h1, h2, h3]
    dsimp only
    unfold cfgSetPlanPIndexes
    rw [if_pos hcas]
  · intro op cs1 plan1 d hcas h1 h2 h3
    unfold assignPartition
    rw [h1, h2, h3]
    dsimp only
    unfold cfgSetPlanPIndexes
    rw [if_neg hcas]

/-- Witness data: an empty currStates table. -/
def csEmptyW : CurrStates := []

/-- Witness data: currStates with slot (i, pA, n1) already holding a
non-empty state. -/
def csOccW : CurrStates :=
  [("i", [("pA", [("n1", { state := "primary", op := "add" })])])]

/-- Witness data: the rebalancer's IndexDefs map. -/
def rebalIndexDefsW : List (String × IndexDef) := [("i", indexDefTen)]

/-- Witness data: the store as read (plan holds pA on node n1, cas 7). -/
def readStoreW : CfgStoreM := { plan := [("pA", ppMatchW)], cas := 7 }

/-- Witness data: the same store after a concurrent planner won (cas 8). -/
def writeStoreLostW : CfgStoreM := { plan := [("pA", ppMatchW)], cas := 8 }

/-- Witness data: no per-node plan-param overrides. -/
def nppW (_node _planPIndexName : String) : Option (Bool × Bool) := none

/-- C9 counterexample to the claim as stated: with a concrete step whose
validations all pass, a CAS lost to a concurrent planner makes
assignPartition return an error — it is not retried with a fresh read. -/
theorem assignPartition_casLost_counterexample :
    assignPartition csEmptyW rebalIndexDefsW [] readStoreW writeStoreLostW
      "fresh" nppW "i" "pA" "n2" "replica" "add" =
      Except.error
        "assignPartition: update plan, perhaps a concurrent planner won" := by
  rfl

theorem assignPartition_spec_witness :
    (assignPartitionCurrStates csOccW "i" "pA" "n1" "primary" "add" =
      Except.error "assignPartitionCurrStates: op was add when exists") ∧
    (updatePlanPIndexes readStoreW.plan [] "fresh" nppW "pA" "n1" "replica" "add" =
      Except.error "assignPartition: planPIndex already exists") ∧
    (assignPartition csEmptyW rebalIndexDefsW [] readStoreW readStoreW
        "fresh" nppW "i" "pA" "n2" "replica" "add" =
      Except.ok ([("i", [("pA", [("n2", { state := "replica", op := "add" })])])],
        { plan := alSet readStoreW.plan "pA"
            { ppMatchW with
                uuid := "fresh"
                nodes := alSet ppMatchW.nodes "n2"
                  { canRead := true, canWrite := true, priority := 1 } }
          cas := 8 })) := by
  refine ⟨?_, ?_, ?_⟩
  · exact (assignPartition_spec csOccW rebalIndexDefsW [] readStoreW readStoreW
      "fresh" nppW "i" "pA" "n1" "primary").1
      { state := "primary", op := "add" } rfl (by decide)
  · exact (assignPartition_spec csEmptyW rebalIndexDefsW [] readStoreW readStoreW
      "fresh" nppW "i" "pA" "n1" "replica").2.1 ppMatchW
      { canRead := true, canWrite := true, priority := 0 } rfl rfl
  · have h := (assignPartition_spec csEmptyW rebalIndexDefsW [] readStoreW
      readStoreW "fresh" nppW "i" "pA" "n2" "replica").2.2.2.2.1 "add"
      [("i", [("pA", [("n2", { state := "replica", op := "add" })])])]
      (alSet readStoreW.plan "pA"
        { ppMatchW with
            uuid := "fresh"
            nodes := alSet ppMatchW.nodes "n2"
              { canRead := true, canWrite := true, priority := 1 } })
      indexDefTen rfl (by rfl) rfl (by rfl)
    exact h

set_option maxRecDepth 8000 in
/-- Sanity check of the crc32-IEEE embedding against the standard test
vector: crc32("123456789") = 0xcbf43926. -/
theorem crc32_ieee_test_vector : crc32 (strBytes "123456789") = 0xcbf43926 := by
  decide
